import Mathlib

/-!
Verification of the browser-automation runner core of this repository
(action validator, domain allowlist guard, session store path safety,
remote asset fetcher, artifact naming, and the job-runner deadline loop).

The TypeScript sources are shallowly embedded as executable Lean
definitions.  Platform primitives that the code delegates to
(JavaScript string methods, the WHATWG `URL` parser, Node `path`
resolution, and the filesystem) are modelled explicitly; each model
carries a doc comment stating what it stands for and which assumptions
it makes.  JavaScript numbers are modelled as `Int`: every numeric
field the validator accepts is required by the code itself to be a
finite integer (`Number.isFinite`/`Number.isInteger` guards), so
non-integer numerics are folded into the rejected/NaN case of the
coercion model.
-/

/-- Error shape thrown throughout the runner (`PlaywrightHttpError` in
`errors.ts`): an HTTP status code plus a message.  The optional
`details` payload is irrelevant to the claims and omitted. -/
structure PlaywrightHttpError where
  statusCode : Nat
  message : String
deriving DecidableEq, Repr

/-- Model of `Char` membership in the JavaScript regex class `\s`
(restricted to the whitespace characters Lean core knows; the inputs
of interest are ASCII). -/
def isJsWs (c : Char) : Bool :=
  c.isWhitespace

/-- Model of `String.prototype.trim`: drop leading and trailing
whitespace. -/
def jsTrim (s : String) : String :=
  String.mk (((s.data.dropWhile isJsWs).reverse.dropWhile isJsWs).reverse)

/-- Model of `String.prototype.toLowerCase`, ASCII-only (all hostnames
and filenames in the claims are ASCII). -/
def jsToLower (s : String) : String :=
  String.mk (s.data.map Char.toLower)

/-- Model of `String.prototype.startsWith`. -/
def jsStartsWith (s pre : String) : Bool :=
  pre.data.isPrefixOf s.data

/-- Model of `String.prototype.endsWith`. -/
def jsEndsWith (s suf : String) : Bool :=
  suf.data.isSuffixOf s.data

/-- A character of the session-identifier / safe-filename class
`[a-zA-Z0-9._-]`. -/
def isSafeNameChar (c : Char) : Bool :=
  c.isAlphanum || c = '.' || c = '_' || c = '-'

/-- Model of the test `/^[a-zA-Z0-9._-]{1,64}$/.test s` from
`validateSessionName` in `validators.ts`. -/
def sessionRegexMatches (s : String) : Bool :=
  decide (1 ≤ s.data.length) && decide (s.data.length ≤ 64) && s.data.all isSafeNameChar

/-- Model of the test `/^[a-zA-Z0-9._-]+$/.test s`
(`SAFE_FILENAME_REGEX` in the storage module). -/
def safeFilenameMatches (s : String) : Bool :=
  decide (1 ≤ s.data.length) && s.data.all isSafeNameChar

/-- Parsed URL pieces used by the code: `protocol` (with trailing
colon), lower-cased `hostname`, and `pathname`. -/
structure URLParts where
  protocol : String
  hostname : String
  pathname : String
deriving DecidableEq, Repr

/-- First scheme character per WHATWG: an ASCII letter. -/
def isSchemeStartChar (c : Char) : Bool :=
  c.isAlpha

/-- Later scheme characters per WHATWG. -/
def isSchemeChar (c : Char) : Bool :=
  c.isAlphanum || c = '+' || c = '-' || c = '.'

/-- Split a character list at the first occurrence of `sep`,
returning the part before it and the part after it (`none` when `sep`
does not occur). -/
def splitAtFirst (sep : Char) : List Char → Option (List Char × List Char)
  | [] => none
  | c :: rest =>
    if c = sep then some ([], rest)
    else
      match splitAtFirst sep rest with
      | none => none
      | some (pre, post) => some (c :: pre, post)

/-- Characters terminating the authority component of a URL. -/
def isAuthorityEnd (c : Char) : Bool :=
  c = '/' || c = '?' || c = '#'

/-- Characters terminating the path component of a URL. -/
def isPathEnd (c : Char) : Bool :=
  c = '?' || c = '#'

/-- Drop everything up to and including the last occurrence of `sep`
(used to strip `userinfo@` from a URL authority). -/
def afterLast (sep : Char) (cs : List Char) : List Char :=
  (cs.reverse.takeWhile (fun c => !(c = sep))).reverse

/-- Model of the WHATWG `new URL(s)` constructor for the fragment the
code relies on: a URL is a scheme, then `:`, then either
`//authority[/path]` (hierarchical; the authority must contain a
non-empty hostname, obtained by stripping `userinfo@` and `:port`) or
an opaque path.  Strings with no valid scheme or no `:` fail to
parse, which is what `new URL(...)` throwing models.  Hostname and
protocol are lower-cased as the platform parser does. -/
def parseURL (s : String) : Option URLParts :=
  let cs := (jsTrim s).data
  match splitAtFirst ':' cs with
  | none => none
  | some (schemeCs, rest) =>
    match schemeCs with
    | [] => none
    | c0 :: restScheme =>
      if !(isSchemeStartChar c0 && restScheme.all isSchemeChar) then none
      else
        let protocol := jsToLower (String.mk schemeCs) ++ ":"
        match rest with
        | '/' :: '/' :: afterSlashes =>
          let authority := afterSlashes.takeWhile (fun c => !isAuthorityEnd c)
          let hostPort := afterLast '@' authority
          let host := hostPort.takeWhile (fun c => !(c = ':'))
          if host = [] then none
          else
            let afterAuthority := afterSlashes.drop authority.length
            let pathCs := afterAuthority.takeWhile (fun c => !isPathEnd c)
            some {
              protocol := protocol
              hostname := jsToLower (String.mk host)
              pathname := if pathCs = [] then "/" else String.mk pathCs
            }
        | _ =>
          some {
            protocol := protocol
            hostname := ""
            pathname := String.mk (rest.takeWhile (fun c => !isPathEnd c))
          }

/-- The field-scoped invalid-URL message thrown by
`assertAllowedDomain` (and by `requireHttpUrl`). -/
def invalidUrlMessage (fieldName : String) : String :=
  "Campo \"" ++ fieldName ++ "\" deve conter URL valida."

/-- The domain-blocked message thrown by `assertAllowedDomain`. -/
def blockedDomainMessage (fieldName : String) (allowDomains : List String) : String :=
  "Dominio bloqueado em \"" ++ fieldName ++ "\". Permitidos: " ++
    String.intercalate ", " allowDomains

/-- Embedding of `assertAllowedDomain` from `validators.ts`: empty
allowlist returns at once; otherwise the URL is parsed (parse failure
is the invalid-URL error), the hostname lower-cased, and the host must
equal an entry or end with `"." ++ entry`, else the domain-blocked
error is thrown. -/
def assertAllowedDomain (urlValue : String) (allowDomains : List String)
    (fieldName : String) : Except PlaywrightHttpError Unit :=
  if allowDomains.length = 0 then
    .ok ()
  else
    match parseURL urlValue with
    | none => .error ⟨400, invalidUrlMessage fieldName⟩
    | some parsed =>
      let host := jsToLower parsed.hostname
      let isAllowed := allowDomains.any (fun domain =>
        host = domain || jsEndsWith host ("." ++ domain))
      if !isAllowed then
        .error ⟨400, blockedDomainMessage fieldName allowDomains⟩
      else
        .ok ()

/-- Embedding of `validateSessionName` from `validators.ts`,
specialised to string inputs (the callers in the storage module pass
strings; the validator path for non-string JSON values is handled by
`validateSessionNameJ` below): empty-after-trim is rejected, the
trimmed value must match the session regex, and the trimmed value is
returned. -/
def validateSessionName (value : String) (fieldName : String) :
    Except PlaywrightHttpError String :=
  if jsTrim value = "" then
    .error ⟨400, s!"Campo \"{fieldName}\" e obrigatorio."⟩
  else
    let session := jsTrim value
    if !sessionRegexMatches session then
      .error ⟨400, s!"Campo \"{fieldName}\" invalido. Use apenas letras, numeros, ponto, underscore e hifen."⟩
    else
      .ok session

/-- Untyped JSON-like payload values, as produced by `JSON.parse` on a
request body.  Absence of an object key models the JavaScript
`undefined`.  Numbers carry integers (see the header note on the
number model). -/
inductive JValue where
  | null : JValue
  | bool (b : Bool) : JValue
  | num (n : Int) : JValue
  | str (s : String) : JValue
  | arr (xs : List JValue) : JValue
  | obj (fields : List (String × JValue)) : JValue

/-- Property lookup on an object field list (objects coming from
`JSON.parse` have distinct keys; the first match is taken). -/
def objLookup (fields : List (String × JValue)) (k : String) : Option JValue :=
  (fields.find? (fun p => p.1 = k)).map (fun p => p.2)

/-- Assign a key on an object field list with JavaScript object
semantics: an existing key keeps its position but takes the new
value, a new key is appended. -/
def objInsert (fields : List (String × JValue)) (kv : String × JValue) :
    List (String × JValue) :=
  if (fields.map (fun p => p.1)).contains kv.1 then
    fields.map (fun p => if p.1 = kv.1 then (p.1, kv.2) else p)
  else
    fields ++ [kv]

/-- Model of the object spread `{ ...base, ...extra }`: the keys of
`extra` override those of `base`. -/
def objSpread (base extra : List (String × JValue)) : List (String × JValue) :=
  extra.foldl objInsert base

/-- The JavaScript test `value === undefined || value === null ||
value === ''` applied to an optional property. -/
def isNullish : Option JValue → Bool
  | none => true
  | some .null => true
  | some (.str s) => s = ""
  | some _ => false

/-- Parse a decimal integer literal with an optional sign (the
integer fragment of the JavaScript `Number(string)` coercion; inputs
that are not plain integers map to `none`, the NaN/non-integer case,
which `parsePositiveInteger` rejects either way). -/
def parseDecInt (cs : List Char) : Option Int :=
  match cs with
  | '-' :: ds => if ds ≠ [] && ds.all Char.isDigit then
      some (-(ds.foldl (fun acc c => acc * 10 + (c.toNat - 48)) 0 : Nat)) else none
  | '+' :: ds => if ds ≠ [] && ds.all Char.isDigit then
      some ((ds.foldl (fun acc c => acc * 10 + (c.toNat - 48)) 0 : Nat)) else none
  | ds => if ds ≠ [] && ds.all Char.isDigit then
      some ((ds.foldl (fun acc c => acc * 10 + (c.toNat - 48)) 0 : Nat)) else none

/-- Model of `Number(value)` restricted to integer outcomes: `none`
stands for NaN or a non-integer number (both rejected by the
`Number.isFinite`/`Number.isInteger` guards that every caller
applies). -/
def jsToNumberInt : JValue → Option Int
  | .num n => some n
  | .str s =>
    let t := jsTrim s
    if t = "" then some 0 else parseDecInt t.data
  | .bool b => some (if b then 1 else 0)
  | .null => some 0
  | .arr [] => some 0
  | .arr [x] => jsToNumberInt x
  | .arr (_ :: _ :: _) => none
  | .obj _ => none

/-- Model of `String(value)` for the values the enum parser can see;
only the string case matters (anything else fails the closed-set
membership test that follows). -/
def jsToString : JValue → String
  | .str s => s
  | .num n => toString n
  | .bool b => if b then "true" else "false"
  | .null => "null"
  | .arr _ => ""
  | .obj _ => "[object Object]"

/-- `String(normalized.action)` where a missing property is the
JavaScript `undefined`. -/
def jsToStringU : Option JValue → String
  | none => "undefined"
  | some v => jsToString v

/-- Embedding of `requireObject` from `validators.ts`: `null`,
primitives and arrays are rejected. -/
def requireObject (value : JValue) (fieldName : String) :
    Except PlaywrightHttpError (List (String × JValue)) :=
  match value with
  | .obj fields => .ok fields
  | _ => .error ⟨400, s!"Campo \"{fieldName}\" deve ser objeto."⟩

/-- Embedding of `requireNonEmptyString`: non-strings and
empty-after-trim strings are rejected; the trimmed value is
returned. -/
def requireNonEmptyString (value : Option JValue) (fieldName : String) :
    Except PlaywrightHttpError String :=
  match value with
  | some (.str s) =>
    if jsTrim s = "" then .error ⟨400, s!"Campo \"{fieldName}\" e obrigatorio."⟩
    else .ok (jsTrim s)
  | _ => .error ⟨400, s!"Campo \"{fieldName}\" e obrigatorio."⟩

/-- Embedding of `requireString`: non-strings are rejected, the
string is returned untrimmed. -/
def requireString (value : Option JValue) (fieldName : String) :
    Except PlaywrightHttpError String :=
  match value with
  | some (.str s) => .ok s
  | _ => .error ⟨400, s!"Campo \"{fieldName}\" deve ser string."⟩

/-- Embedding of `validateSessionName` on raw JSON values (the
validator entry point): non-strings fall into the mandatory-field
error, strings go through the string version. -/
def validateSessionNameJ (value : Option JValue) (fieldName : String) :
    Except PlaywrightHttpError String :=
  match value with
  | some (.str s) => validateSessionName s fieldName
  | _ => .error ⟨400, s!"Campo \"{fieldName}\" e obrigatorio."⟩

/-- Embedding of `parseOptionalSession`. -/
def parseOptionalSession (value : Option JValue) :
    Except PlaywrightHttpError (Option String) :=
  if isNullish value then .ok none
  else (validateSessionNameJ value "session").map some

/-- Embedding of `parsePositiveInteger`: NaN / non-finite /
non-integer / non-positive values are rejected, then the hard ceiling
is enforced. -/
def parsePositiveInteger (value : JValue) (fieldName : String) (maxValue : Int) :
    Except PlaywrightHttpError Int :=
  match jsToNumberInt value with
  | none => .error ⟨400, s!"Campo \"{fieldName}\" deve ser inteiro positivo."⟩
  | some parsed =>
    if parsed ≤ 0 then
      .error ⟨400, s!"Campo \"{fieldName}\" deve ser inteiro positivo."⟩
    else if parsed > maxValue then
      .error ⟨400, s!"Campo \"{fieldName}\" excede limite de {maxValue}."⟩
    else
      .ok parsed

/-- Embedding of `parseOptionalPositiveInteger`. -/
def parseOptionalPositiveInteger (value : Option JValue) (fieldName : String)
    (maxValue : Int) : Except PlaywrightHttpError (Option Int) :=
  if isNullish value then .ok none
  else (parsePositiveInteger (value.getD .null) fieldName maxValue).map some

/-- Embedding of `parseTimeoutMs`: absent values take the configured
default, present values are positive integers with ceiling
600000. -/
def parseTimeoutMs (value : Option JValue) (defaultValue : Int) :
    Except PlaywrightHttpError Int :=
  if isNullish value then .ok defaultValue
  else parsePositiveInteger (value.getD .null) "timeoutMs" 600000

/-- Embedding of `parseOptionalEnum`. -/
def parseOptionalEnum (value : Option JValue) (allowed : List String)
    (fieldName : String) : Except PlaywrightHttpError (Option String) :=
  if isNullish value then .ok none
  else
    let parsed := jsToStringU value
    if !allowed.contains parsed then
      let accepted := String.intercalate ", " allowed
      .error ⟨400, s!"Campo \"{fieldName}\" invalido. Aceitos: {accepted}"⟩
    else
      .ok (some parsed)

/-- Embedding of `parseOptionalBoolean`. -/
def parseOptionalBoolean (value : Option JValue) (fieldName : String) :
    Except PlaywrightHttpError (Option Bool) :=
  if isNullish value then .ok none
  else
    match value with
    | some (.bool b) => .ok (some b)
    | _ => .error ⟨400, s!"Campo \"{fieldName}\" deve ser boolean."⟩

/-- Embedding of `requireHttpUrl`: the value must be a non-empty
string parsing as a URL with an `http:`/`https:` protocol; the
(trimmed) string is returned. -/
def requireHttpUrl (value : Option JValue) (fieldName : String) :
    Except PlaywrightHttpError String := do
  let url ← requireNonEmptyString value fieldName
  match parseURL url with
  | none => .error ⟨400, invalidUrlMessage fieldName⟩
  | some parsed =>
    if parsed.protocol ≠ "http:" && parsed.protocol ≠ "https:" then
      .error ⟨400, s!"Campo \"{fieldName}\" deve usar http/https."⟩
    else
      .ok url

/-- Embedding of `assertOnlyAllowedKeys`: the first key outside the
allowlist (in object order) raises the closed-schema error. -/
def assertOnlyAllowedKeys (value : List (String × JValue)) (allowedKeys : List String)
    (fieldName : String) : Except PlaywrightHttpError Unit :=
  match value.find? (fun p => !allowedKeys.contains p.1) with
  | some p => .error ⟨400, s!"{fieldName} contem campo nao permitido: \"{p.1}\"."⟩
  | none => .ok ()

/-- `WAIT_UNTIL_VALUES` from `validators.ts`. -/
def WAIT_UNTIL_VALUES : List String :=
  ["load", "domcontentloaded", "networkidle", "commit"]

/-- `WAIT_FOR_STATE_VALUES` from `validators.ts`. -/
def WAIT_FOR_STATE_VALUES : List String :=
  ["attached", "detached", "visible", "hidden"]

/-- `ACTION_NAMES` from `validators.ts`, verbatim: note that the set
has eleven entries and does not contain `"evaluate"`. -/
def ACTION_NAMES : List String :=
  ["goto", "click", "fill", "press", "waitFor", "upload", "uploadFromUrl",
   "screenshot", "extractText", "extractAttr", "saveStorage"]

/-- The tagged action union from `types.ts`.  Enum-valued fields are
carried as strings whose membership in the closed sets is enforced by
the parser, exactly as the TypeScript literal unions are enforced by
`parseOptionalEnum`.  The `evaluate` variant is present in the type
(as `EvaluateAction` is in `types.ts`) even though the validator
never produces it. -/
inductive PlaywrightAction where
  | goto (url : String) (waitUntil : Option String)
  | click (selector : String) (delayMs : Option Int)
  | fill (selector : String) (text : String)
  | press (selector : String) (key : String)
  | waitFor (selector : Option String) (state : Option String) (timeoutMs : Option Int)
  | upload (selector : String) (path : String)
  | uploadFromUrl (selector : String) (url : String)
  | screenshot (name : String) (fullPage : Option Bool)
  | extractText (selector : String) (key : String)
  | extractAttr (selector : String) (attr : String) (key : String)
  | saveStorage (session : String)
  | evaluate (script : String) (arg : Option JValue) (key : Option String)

/-- The `action.action` tag, as dispatched on by the runner. -/
def PlaywrightAction.name : PlaywrightAction → String
  | .goto _ _ => "goto"
  | .click _ _ => "click"
  | .fill _ _ => "fill"
  | .press _ _ => "press"
  | .waitFor _ _ _ => "waitFor"
  | .upload _ _ => "upload"
  | .uploadFromUrl _ _ => "uploadFromUrl"
  | .screenshot _ _ => "screenshot"
  | .extractText _ _ => "extractText"
  | .extractAttr _ _ _ => "extractAttr"
  | .saveStorage _ => "saveStorage"
  | .evaluate _ _ _ => "evaluate"

/-- Embedding of `normalizeActionObject`: a canonical object (its
`action` property is a string) passes through; otherwise the object
must have exactly one key, that key must be a known action name, its
value must be an object, and the shorthand is rewritten to
`{ action: key, ...nested }` with object-spread semantics. -/
def normalizeActionObject (value : JValue) (fieldName : String) :
    Except PlaywrightHttpError (List (String × JValue)) := do
  let raw ← requireObject value fieldName
  match objLookup raw "action" with
  | some (.str _) => .ok raw
  | _ =>
    match raw with
    | [(key, nested)] =>
      if !ACTION_NAMES.contains key then
        .error ⟨400, s!"{fieldName} action curta invalida: \"{key}\"."⟩
      else do
        let nestedObject ← requireObject nested s!"{fieldName}.{key}"
        .ok (objSpread [("action", .str key)] nestedObject)
    | _ =>
      .error ⟨400, s!"{fieldName} deve conter \"action\" ou formato curto \x7b \"acao\": \x7b ... \x7d \x7d."⟩

/-- Embedding of the body of `parseAction` after normalisation: the
per-variant closed-schema switch of `validators.ts`.  The tag has
already passed the `ACTION_NAMES` membership test; note the switch
itself has no `evaluate` case, mirroring the source, so even a tag
that reached it would fall into the default error. -/
def parseActionSwitch (actionName : String) (normalized : List (String × JValue))
    (actionPath : String) (allowDomains : List String) :
    Except PlaywrightHttpError PlaywrightAction :=
  match actionName with
  | "goto" => do
    assertOnlyAllowedKeys normalized ["action", "url", "waitUntil"] actionPath
    let url ← requireHttpUrl (objLookup normalized "url") s!"{actionPath}.url"
    assertAllowedDomain url allowDomains s!"{actionPath}.url"
    let waitUntil ← parseOptionalEnum (objLookup normalized "waitUntil")
      WAIT_UNTIL_VALUES s!"{actionPath}.waitUntil"
    .ok (.goto url waitUntil)
  | "click" => do
    assertOnlyAllowedKeys normalized ["action", "selector", "delayMs"] actionPath
    let selector ← requireNonEmptyString (objLookup normalized "selector") s!"{actionPath}.selector"
    let delayMs ← parseOptionalPositiveInteger (objLookup normalized "delayMs")
      s!"{actionPath}.delayMs" 10000
    .ok (.click selector delayMs)
  | "fill" => do
    assertOnlyAllowedKeys normalized ["action", "selector", "text"] actionPath
    let selector ← requireNonEmptyString (objLookup normalized "selector") s!"{actionPath}.selector"
    let text ← requireString (objLookup normalized "text") s!"{actionPath}.text"
    .ok (.fill selector text)
  | "press" => do
    assertOnlyAllowedKeys normalized ["action", "selector", "key"] actionPath
    let selector ← requireNonEmptyString (objLookup normalized "selector") s!"{actionPath}.selector"
    let key ← requireNonEmptyString (objLookup normalized "key") s!"{actionPath}.key"
    .ok (.press selector key)
  | "waitFor" => do
    assertOnlyAllowedKeys normalized ["action", "selector", "state", "timeoutMs"] actionPath
    let selector ← (if isNullish (objLookup normalized "selector") then
        pure none
      else
        (requireNonEmptyString (objLookup normalized "selector") s!"{actionPath}.selector").map some)
    let state ← parseOptionalEnum (objLookup normalized "state")
      WAIT_FOR_STATE_VALUES s!"{actionPath}.state"
    let timeoutMs ← parseOptionalPositiveInteger (objLookup normalized "timeoutMs")
      s!"{actionPath}.timeoutMs" 120000
    if selector = none && timeoutMs = none then
      .error ⟨400, s!"{actionPath}: informe \"selector\" e/ou \"timeoutMs\" para waitFor."⟩
    else
      .ok (.waitFor selector state timeoutMs)
  | "upload" => do
    assertOnlyAllowedKeys normalized ["action", "selector", "path"] actionPath
    let selector ← requireNonEmptyString (objLookup normalized "selector") s!"{actionPath}.selector"
    let localPath ← requireNonEmptyString (objLookup normalized "path") s!"{actionPath}.path"
    .ok (.upload selector localPath)
  | "uploadFromUrl" => do
    assertOnlyAllowedKeys normalized ["action", "selector", "url"] actionPath
    let selector ← requireNonEmptyString (objLookup normalized "selector") s!"{actionPath}.selector"
    let url ← requireHttpUrl (objLookup normalized "url") s!"{actionPath}.url"
    assertAllowedDomain url allowDomains s!"{actionPath}.url"
    .ok (.uploadFromUrl selector url)
  | "screenshot" => do
    assertOnlyAllowedKeys normalized ["action", "name", "fullPage"] actionPath
    let name ← requireNonEmptyString (objLookup normalized "name") s!"{actionPath}.name"
    let fullPage ← parseOptionalBoolean (objLookup normalized "fullPage") s!"{actionPath}.fullPage"
    .ok (.screenshot name fullPage)
  | "extractText" => do
    assertOnlyAllowedKeys normalized ["action", "selector", "key"] actionPath
    let selector ← requireNonEmptyString (objLookup normalized "selector") s!"{actionPath}.selector"
    let key ← requireNonEmptyString (objLookup normalized "key") s!"{actionPath}.key"
    .ok (.extractText selector key)
  | "extractAttr" => do
    assertOnlyAllowedKeys normalized ["action", "selector", "attr", "key"] actionPath
    let selector ← requireNonEmptyString (objLookup normalized "selector") s!"{actionPath}.selector"
    let attr ← requireNonEmptyString (objLookup normalized "attr") s!"{actionPath}.attr"
    let key ← requireNonEmptyString (objLookup normalized "key") s!"{actionPath}.key"
    .ok (.extractAttr selector attr key)
  | "saveStorage" => do
    assertOnlyAllowedKeys normalized ["action", "session"] actionPath
    let session ← validateSessionNameJ (objLookup normalized "session") s!"{actionPath}.session"
    .ok (.saveStorage session)
  | _ =>
    .error ⟨400, s!"{actionPath}.action nao suportada."⟩

/-- Embedding of `parseAction`: normalise, check the tag against
`ACTION_NAMES` (unknown tags rejected here, before any variant
schema is considered), then run the variant switch. -/
def parseAction (rawAction : JValue) (index : Nat) (allowDomains : List String) :
    Except PlaywrightHttpError PlaywrightAction := do
  let actionPath := s!"actions[{index}]"
  let normalized ← normalizeActionObject rawAction actionPath
  let actionName := jsToStringU (objLookup normalized "action")
  if !ACTION_NAMES.contains actionName then
    .error ⟨400, s!"{actionPath}.action invalida: \"{actionName}\"."⟩
  else
    parseActionSwitch actionName normalized actionPath allowDomains

/-- Embedding of `resolveActionsArray`: `actions`, else the alias
`commands`, must be an array. -/
def resolveActionsArray (payload : List (String × JValue)) :
    Except PlaywrightHttpError (List JValue) :=
  match objLookup payload "actions" with
  | some (.arr xs) => .ok xs
  | _ =>
    match objLookup payload "commands" with
    | some (.arr xs) => .ok xs
    | _ => .error ⟨400, "Campo \"actions\" deve ser um array."⟩

/-- The proxy option shape from `types.ts`. -/
structure ProxyConfig where
  server : String
  username : Option String
  password : Option String
deriving DecidableEq, Repr

/-- The viewport option shape from `types.ts`. -/
structure Viewport where
  width : Int
  height : Int
deriving DecidableEq, Repr

/-- `PlaywrightRunRequest` from `types.ts`.  `blockResources` entries
are one of the literals `stylesheet`/`image`/`font`; carried as
strings. -/
structure PlaywrightRunRequest where
  session : Option String
  timeoutMs : Int
  proxy : Option ProxyConfig
  blockResources : Option (List String)
  userAgent : Option String
  viewport : Option Viewport
  actions : List PlaywrightAction

/-- Validator options object (`{ maxActions, defaultTimeoutMs,
allowDomains }`). -/
structure ValidatorOptions where
  maxActions : Nat
  defaultTimeoutMs : Int
  allowDomains : List String

/-- `actionsRaw.map((a, i) => parseAction(a, i, allow))` with the
index threaded, failing on the first invalid action. -/
def parseActionsFrom (rawActions : List JValue) (index : Nat)
    (allowDomains : List String) :
    Except PlaywrightHttpError (List PlaywrightAction) :=
  match rawActions with
  | [] => .ok []
  | rawAction :: rest => do
    let a ← parseAction rawAction index allowDomains
    let as ← parseActionsFrom rest (index + 1) allowDomains
    .ok (a :: as)

/-- Embedding of `parseRunRequestBody` from `validators.ts`: the body
must be an object; the optional session is validated; `timeoutMs`
defaults and is bounded; the action list is located, must be
non-empty and within `maxActions`, and every entry is parsed in
order.  The returned request populates only `session`, `timeoutMs`
and `actions` — exactly as the TypeScript object literal
`{ session, timeoutMs, actions }` leaves every other optional field
`undefined`. -/
def parseRunRequestBody (body : JValue) (options : ValidatorOptions) :
    Except PlaywrightHttpError PlaywrightRunRequest := do
  let payload ← requireObject body "body"
  let session ← parseOptionalSession (objLookup payload "session")
  let timeoutMs ← parseTimeoutMs (objLookup payload "timeoutMs") options.defaultTimeoutMs
  let actionsRaw ← resolveActionsArray payload
  if actionsRaw.length = 0 then
    .error ⟨400, "Envie pelo menos 1 action em \"actions\"."⟩
  else if actionsRaw.length > options.maxActions then
    .error ⟨400, s!"Limite excedido: maximo de {options.maxActions} actions por job."⟩
  else do
    let actions ← parseActionsFrom actionsRaw 0 options.allowDomains
    .ok {
      session := session
      timeoutMs := timeoutMs
      proxy := none
      blockResources := none
      userAgent := none
      viewport := none
      actions := actions
    }

/-- Split a character list on `/`, keeping empty segments (the shape
`"/a/b".split("/") = ["", "a", "b"]`). -/
def splitSegsAux : List Char → List Char → List String
  | [], acc => [String.mk acc.reverse]
  | c :: rest, acc =>
    if c = '/' then String.mk acc.reverse :: splitSegsAux rest []
    else splitSegsAux rest (c :: acc)

/-- Split a POSIX path string into its `/`-separated segments. -/
def splitSegs (s : String) : List String :=
  splitSegsAux s.data []

/-- One step of POSIX path normalisation over segments of an absolute
path: empty and `.` segments vanish, `..` pops (a no-op at the
root), anything else is appended. -/
def normStep (acc : List String) (seg : String) : List String :=
  if seg = "" || seg = "." then acc
  else if seg = ".." then acc.dropLast
  else acc ++ [seg]

/-- Normalise the segment list of an absolute path. -/
def normAbs (segs : List String) : List String :=
  segs.foldl normStep []

/-- Join normalised absolute segments back into a path string;
`renderAbs [] = "/"`. -/
def joinSegs : List String → String
  | [] => ""
  | [x] => x
  | x :: rest => x ++ "/" ++ joinSegs rest

/-- Render a normalised absolute segment list as a POSIX path. -/
def renderAbs (segs : List String) : String :=
  "/" ++ joinSegs segs

/-- A path string is absolute when it starts with `/`. -/
def isAbsolutePath (s : String) : Bool :=
  jsStartsWith s "/"

/-- Segment accumulation of Node `path.resolve(...parts)` on POSIX
with an already-normalised absolute working directory `cwd` (given as
segments): the rightmost absolute part resets the accumulation, the
rest append. -/
def resolveSegs (cwd : List String) (parts : List String) : List String :=
  parts.foldl
    (fun acc p => if isAbsolutePath p then splitSegs p else acc ++ splitSegs p) cwd

/-- Model of Node `path.resolve(...parts)` on POSIX: accumulate the
segments, normalise, and render. -/
def pathResolve (cwd : List String) (parts : List String) : String :=
  renderAbs (normAbs (resolveSegs cwd parts))

/-- Model of Node `path.join(a, b)` for the joins the code performs
(both arguments non-empty, the right one a plain file name):
concatenation with a single separator. -/
def pathJoin (a b : String) : String :=
  a ++ "/" ++ b

/-- Embedding of `resolveInsideRoot` from the storage module: resolve
the root and the target, accept a resolution equal to the root,
reject any resolution that does not start with `root ++ "/"`, and
return the resolved path otherwise.  The working directory of the
process is threaded explicitly since `path.resolve` consults it. -/
def resolveInsideRoot (cwd : List String) (rootDir targetPath label : String) :
    Except PlaywrightHttpError String :=
  let rootResolved := pathResolve cwd [rootDir]
  let resolved := pathResolve cwd [rootDir, targetPath]
  if resolved = rootResolved then
    .ok resolved
  else if !jsStartsWith resolved (rootResolved ++ "/") then
    .error ⟨400, s!"Tentativa de acesso invalido em {label}."⟩
  else
    .ok resolved

/-- Embedding of `getSessionStatePath`: re-validate the session name
(defence in depth), append `.json`, and resolve inside the storage
root. -/
def getSessionStatePath (cwd : List String) (storageDir session : String) :
    Except PlaywrightHttpError String := do
  let safeSession ← validateSessionName session "session"
  let fileName := safeSession ++ ".json"
  resolveInsideRoot cwd storageDir fileName "session file"

/-- Embedding of `resolveLocalUploadPath`: a bare `path.resolve` of
the caller-supplied path, with no root confinement and no failure
path (the return type is `String`, not `Except`, because the source
cannot throw). -/
def resolveLocalUploadPath (cwd : List String) (filePath : String) : String :=
  pathResolve cwd [filePath]

/-- Worker for `replaceWsRuns`, tracking whether the previous
character was whitespace. -/
def replaceWsRunsAux (prevWs : Bool) : List Char → List Char
  | [] => []
  | c :: rest =>
    if isJsWs c then
      if prevWs then replaceWsRunsAux true rest
      else '-' :: replaceWsRunsAux true rest
    else c :: replaceWsRunsAux false rest

/-- Replace each maximal whitespace run with a single dash (the
global regex replacement of whitespace runs in the sanitisers). -/
def replaceWsRuns (cs : List Char) : List Char :=
  replaceWsRunsAux false cs

/-- Replace characters outside `[a-zA-Z0-9._-]` with `_` (the global
regex replacement of unsafe characters). -/
def replaceUnsafe (cs : List Char) : List Char :=
  cs.map (fun c => if isSafeNameChar c then c else '_')

/-- Worker for `collapseRuns`, tracking whether the previous
character was the collapsed one. -/
def collapseRunsAux (ch : Char) (prevMatch : Bool) : List Char → List Char
  | [] => []
  | c :: rest =>
    if c = ch then
      if prevMatch then collapseRunsAux ch true rest
      else ch :: collapseRunsAux ch true rest
    else c :: collapseRunsAux ch false rest

/-- Collapse each maximal run of the character `ch` to a single
occurrence (the underscore-run and dash-run collapsing replacements
of `sanitizeArtifactFilename`). -/
def collapseRuns (ch : Char) (cs : List Char) : List Char :=
  collapseRunsAux ch false cs

/-- A leading/trailing-strip character for the sanitisers:
`[-_.]`. -/
def isStripChar (c : Char) : Bool :=
  c = '-' || c = '_' || c = '.'

/-- Strip leading and trailing `[-_.]+` runs. -/
def stripEdges (cs : List Char) : List Char :=
  ((cs.dropWhile isStripChar).reverse.dropWhile isStripChar).reverse

/-- Embedding of `sanitizeArtifactFilename` from the storage module:
trim, collapse whitespace to `-`, map unsafe characters to `_`,
collapse `_` and `-` runs, strip `[-_.]` edges, default to
`screenshot` when empty, force a `.png` suffix (case-insensitive
check), and require the result to match the safe-filename regex. -/
def sanitizeArtifactFilename (name : String) : Except PlaywrightHttpError String :=
  let trimmed := jsTrim name
  if trimmed = "" then
    .error ⟨400, "Nome de screenshot nao pode ser vazio."⟩
  else
    let collapsed := String.mk (stripEdges (collapseRuns '-'
      (collapseRuns '_' (replaceUnsafe (replaceWsRuns trimmed.data)))))
    let base := if collapsed = "" then "screenshot" else collapsed
    let withPng := if jsEndsWith (jsToLower base) ".png" then base else base ++ ".png"
    if !safeFilenameMatches withPng then
      .error ⟨400, "Nome de screenshot invalido."⟩
    else
      .ok withPng

/-- Model of Node `path.basename` for POSIX: the part after the last
`/`. -/
def pathBasename (s : String) : String :=
  String.mk (afterLast '/' s.data)

/-- The extension-strip regex of `createSafeFileName` (a dot followed
by one or more non-dot characters at the end of the string): remove
that suffix when it matches. -/
def stripLastExtension (cs : List Char) : List Char :=
  let rev := cs.reverse
  let sufRev := rev.takeWhile (fun c => !(c = '.'))
  match rev.drop sufRev.length with
  | '.' :: before =>
    if sufRev = [] then cs else before.reverse
  | _ => cs

/-- Embedding of `mapImageExtension` from the download module. -/
def mapImageExtension (contentType : String) : String :=
  if contentType = "image/jpeg" then ".jpg"
  else if contentType = "image/png" then ".png"
  else if contentType = "image/webp" then ".webp"
  else if contentType = "image/gif" then ".gif"
  else if contentType = "image/bmp" then ".bmp"
  else ".img"

/-- Embedding of `createSafeFileName` from the download module: take
the URL pathname (empty on parse failure), its basename (default
`upload`), strip the extension, collapse whitespace to dashes, map
unsafe characters to underscores, strip `[-_.]` edges, default to
`upload` when empty, and append the content-type extension. -/
def createSafeFileName (urlValue : String) (extension : String) : String :=
  let pathname :=
    match parseURL urlValue with
    | some parsed => parsed.pathname
    | none => ""
  let basename := if pathBasename pathname = "" then "upload" else pathBasename pathname
  let stripped := stripLastExtension basename.data
  let normalized := stripEdges (replaceUnsafe (replaceWsRuns stripped))
  let safeBase := if normalized = [] then "upload" else String.mk normalized
  safeBase ++ extension

/-- The size-limit error message of the download module; `mbText` is
the rendering of `(maxBytes / (1024*1024)).toFixed(0)`, modelled as
rounding to the nearest integer (ties away from zero, as `toFixed`
rounds). -/
def sizeLimitMessage (maxBytes : Nat) : String :=
  s!"Arquivo em uploadFromUrl excede limite de {(2 * maxBytes + 1048576) / 2097152}MB."

/-- The content-type header processing of `downloadImageFromUrl`:
`String(headers.get("content-type") || "")`, cut at the first `;`,
trimmed and lower-cased. -/
def normalizeContentType (header : Option String) : String :=
  jsToLower (jsTrim (String.mk
    ((header.getD "").data.takeWhile (fun c => !(c = ';')))))

/-- Model of `Number.parseInt(s, 10)`: skip leading whitespace,
optional sign, then a digit prefix; no digits is NaN (`none`). -/
def parseIntPrefix (s : String) : Option Int :=
  let cs := s.data.dropWhile isJsWs
  let signAndDigits : Int × List Char :=
    match cs with
    | '-' :: rest => (-1, rest)
    | '+' :: rest => (1, rest)
    | rest => (1, rest)
  let digits := signAndDigits.2.takeWhile Char.isDigit
  if digits = [] then none
  else some (signAndDigits.1 * (digits.foldl (fun acc c => acc * 10 + (c.toNat - 48)) 0 : Nat))

/-- The declared content-length pre-check of `downloadImageFromUrl`:
a present header whose parsed integer exceeds `maxBytes` causes
rejection before the body is read (an absent or unparsable header
does not). -/
def declaredSizeExceeds (header : Option String) (maxBytes : Nat) : Bool :=
  match header with
  | none => false
  | some h =>
    match parseIntPrefix h with
    | none => false
    | some declaredSize => declaredSize > (maxBytes : Int)

/-- The abstract outcome of the platform `fetch` call: either a
network-level failure carrying the error name (`AbortError` models
the timeout cancellation) or a response. -/
inductive FetchOutcome where
  | netError (name : String)
  | response (status : Nat) (contentType : Option String)
      (contentLength : Option String) (body : Option (List Nat))

/-- `response.ok`: status in the 2xx range. -/
def statusOk (status : Nat) : Bool :=
  200 ≤ status && status < 300

/-- The streaming loop of `downloadImageFromUrl` (the async generator
`limitAndCount` piped into the destination write stream): each chunk
first increases the cumulative count; a count above `maxBytes`
throws the size-limit error before the chunk is yielded, otherwise
the chunk is written.  Returns the outcome, the cumulative byte
count, and the bytes actually written to the destination file. -/
def streamChunks (maxBytes : Nat) :
    List Nat → Nat → Nat → Except PlaywrightHttpError Unit × Nat × Nat
  | [], total, written => (.ok (), total, written)
  | chunk :: rest, total, written =>
    let t := total + chunk
    if t > maxBytes then (.error ⟨400, sizeLimitMessage maxBytes⟩, t, written)
    else streamChunks maxBytes rest t (written + chunk)

/-- Result of a `downloadImageFromUrl` call together with the
observable filesystem effect on the destination path:
`fileCreated` is true when the write stream was opened (so a file
came into existence) and `fileRemains` is true when the destination
file still exists at the moment the function returns (the `finally`
block removes it only when the cumulative count is zero). -/
structure DownloadEffect where
  outcome : Except PlaywrightHttpError
    (String × String × String × Nat)
  fileCreated : Bool
  fileRemains : Bool
  bytesWritten : Nat
deriving Repr

/-- Embedding of `downloadImageFromUrl` from the download module over
an abstract fetch outcome.  The checks appear in source order:
domain allowlist, network failure (distinguishing the abort), a
non-2xx status, the image content-type requirement, the declared
content-length ceiling, a missing body, then the streaming loop with
cut-off, the empty-payload rejection, and the `finally` cleanup that
removes the file only when zero bytes were counted. -/
def downloadImageFromUrl (url : String) (destinationDir : String) (maxBytes : Nat)
    (timeoutMs : Int) (allowDomains : List String) (fetched : FetchOutcome) :
    DownloadEffect :=
  match assertAllowedDomain url allowDomains "uploadFromUrl.url" with
  | .error e => ⟨.error e, false, false, 0⟩
  | .ok () =>
    match fetched with
    | .netError name =>
      if name = "AbortError" then
        ⟨.error ⟨400, s!"Timeout ao baixar uploadFromUrl ({timeoutMs}ms)."⟩, false, false, 0⟩
      else
        ⟨.error ⟨400, "Falha de rede ao baixar uploadFromUrl."⟩, false, false, 0⟩
    | .response status contentTypeHeader contentLengthHeader body =>
      if !statusOk status then
        ⟨.error ⟨400, s!"Falha ao baixar uploadFromUrl: HTTP {status}."⟩, false, false, 0⟩
      else
        let contentType := normalizeContentType contentTypeHeader
        if !jsStartsWith contentType "image/" then
          let shown := if contentType = "" then "desconhecido" else contentType
          ⟨.error ⟨400,
            s!"uploadFromUrl permite apenas image/*, recebido: {shown}."⟩,
            false, false, 0⟩
        else
          if declaredSizeExceeds contentLengthHeader maxBytes then
            ⟨.error ⟨400, sizeLimitMessage maxBytes⟩, false, false, 0⟩
          else
            match body with
            | none =>
              ⟨.error ⟨400, "uploadFromUrl retornou resposta sem body."⟩, false, false, 0⟩
            | some chunks =>
              let fileName := createSafeFileName url (mapImageExtension contentType)
              let filePath := pathJoin destinationDir fileName
              let streamed := streamChunks maxBytes chunks 0 0
              let totalBytes := streamed.2.1
              let written := streamed.2.2
              match streamed.1 with
              | .error e =>
                ⟨.error e, true, !(totalBytes = 0), written⟩
              | .ok () =>
                if totalBytes = 0 then
                  ⟨.error ⟨400, "uploadFromUrl retornou arquivo vazio."⟩, true, false, written⟩
                else
                  ⟨.ok (filePath, fileName, contentType, totalBytes), true, true, written⟩

/-- Embedding of `ensureTimeRemaining` from `runner.ts`: with
`remaining = deadline - now`, a non-positive remainder throws the
total-timeout error (status 408) naming the action about to run. -/
def ensureTimeRemaining (deadline now : Int) (actionName : String) :
    Except PlaywrightHttpError Unit :=
  let remaining := deadline - now
  if remaining ≤ 0 then
    .error ⟨408, s!"Timeout total do job antes da action \"{actionName}\"."⟩
  else
    .ok ()

/-- Embedding of `resolveStepTimeout` from `runner.ts`: a non-positive
remainder throws the total-timeout error (status 408); with no
requested per-action timeout the whole remainder is returned;
otherwise the requested value is clamped to the remainder and floored
at one millisecond. -/
def resolveStepTimeout (deadline now : Int) (requestedTimeoutMs : Option Int) :
    Except PlaywrightHttpError Int :=
  let remaining := deadline - now
  if remaining ≤ 0 then
    .error ⟨408, "Timeout total do job atingido."⟩
  else
    match requestedTimeoutMs with
    | none => .ok remaining
    | some requested => .ok (max 1 (min requested remaining))

/-- Model of Node `path.extname`: the suffix of the basename from its
last dot, unless that dot is the first character of the basename. -/
def pathExtname (s : String) : String :=
  let basename := afterLast '/' s.data
  let rev := basename.reverse
  let sufRev := rev.takeWhile (fun c => !(c = '.'))
  match rev.drop sufRev.length with
  | '.' :: before =>
    if before = [] then ""
    else String.mk ('.' :: sufRev.reverse)
  | _ => ""

/-- The candidate-probing loop of `resolveUniqueFileName`.  The job
output directory is modelled as the list of file names it contains
(`fileExists` on a joined path is membership).  The source loop is
unbounded; it is run here with fuel `existing.length + 1`, which
always suffices because the candidates are pairwise distinct, so at
most `existing.length` of them can collide. -/
def resolveUniqueAux (existing : List String) (baseName ext : String) :
    Nat → String → Nat → String
  | 0, candidate, _ => candidate
  | fuel + 1, candidate, counter =>
    if existing.contains candidate then
      resolveUniqueAux existing baseName ext fuel
        (baseName ++ "-" ++ toString counter ++ ext) (counter + 1)
    else
      candidate

/-- Embedding of `resolveUniqueFileName` from `runner.ts`: split the
desired name into base and extension with `path.extname`, then probe
`name`, `base-1.ext`, `base-2.ext`, ... until a name not present in
the directory is found. -/
def resolveUniqueFileName (existing : List String) (fileName : String) : String :=
  let ext := pathExtname fileName
  let baseName :=
    if ext = "" then fileName
    else String.mk (fileName.data.take (fileName.data.length - ext.data.length))
  resolveUniqueAux existing baseName ext (existing.length + 1) fileName 1

/-- A character `encodeURIComponent` leaves unescaped: alphanumerics
and `-_.!~*'()` (the apostrophe is recognised by its code point
39). -/
def isUriUnreserved (c : Char) : Bool :=
  c.isAlphanum || c = '-' || c = '_' || c = '.' || c = '!' || c = '~' ||
    c = '*' || c = '(' || c = ')' || c.toNat = 39

/-- Hexadecimal digit for percent-encoding. -/
def hexDigit (n : Nat) : Char :=
  if n < 10 then Char.ofNat (48 + n) else Char.ofNat (55 + n)

/-- Model of `encodeURIComponent` for ASCII inputs (artifact
filenames are already restricted to `[a-zA-Z0-9._-]`, on which the
encoding is the identity). -/
def encodeURIComponent (s : String) : String :=
  String.mk (s.data.foldr
    (fun c acc =>
      if isUriUnreserved c then c :: acc
      else '%' :: hexDigit (c.toNat / 16) :: hexDigit (c.toNat % 16) :: acc)
    [])

/-- An artifact record (`PlaywrightArtifact` in `types.ts`). -/
structure PlaywrightArtifact where
  name : String
  filename : String
  url : String
deriving DecidableEq, Repr

/-- The `screenshot` case of `executeAction` in `runner.ts`,
projected onto the state it touches: the set of file names already
present in the job output directory (fresh and initially empty for
every job, since `ensureJobDirectories` creates it under a
newly-generated job id) and the ordered artifact list.
`routeBase` is the configured artifacts route prefix
(`artifactsRoutePrefix` in the source configuration).  The page
screenshot capture itself is an external capability with no effect on
these two pieces of state beyond creating the resolved file. -/
def executeScreenshot (routeBase jobId : String) (name : String)
    (dirFiles : List String) (artifacts : List PlaywrightArtifact) :
    Except PlaywrightHttpError (List String × List PlaywrightArtifact) := do
  let desiredFileName ← sanitizeArtifactFilename name
  let fileName := resolveUniqueFileName dirFiles desiredFileName
  .ok (dirFiles ++ [fileName],
    artifacts ++ [{
      name := name
      filename := fileName
      url := routeBase ++ "/" ++ jobId ++ "/" ++ encodeURIComponent fileName
    }])

/-- Run a sequence of screenshot actions (their `name` fields) in
order, threading the job output directory contents and the artifact
list exactly as the runner loop does.  Only `screenshot` actions
write to the job output directory or append to `outputs.artifacts`,
so a job containing other action kinds interleaved behaves
identically on this state. -/
def runScreenshots (routeBase jobId : String) (names : List String)
    (dirFiles : List String) (artifacts : List PlaywrightArtifact) :
    Except PlaywrightHttpError (List String × List PlaywrightArtifact) :=
  match names with
  | [] => .ok (dirFiles, artifacts)
  | name :: rest => do
    let st ← executeScreenshot routeBase jobId name dirFiles artifacts
    runScreenshots routeBase jobId rest st.1 st.2

/-- Structured log entries for the runner loop.  The source appends
timestamped strings; the claims concern which step-start and
step-completion lines appear, so the entries carry the 0-based step
index, the action tag, and the elapsed milliseconds of a completed
step (rendered in the source as
`[step] done i+1/total name took_ms=d`). -/
inductive LogEntry where
  | jobStart
  | stepStart (index : Nat) (actionName : String)
  | stepDone (index : Nat) (actionName : String) (tookMs : Nat)
  | jobSuccess
  | jobFailure (statusCode : Nat)
deriving DecidableEq, Repr

/-- The 0-based indices of the step-completion (`[step] done`) lines
in a log sequence, in order. -/
def doneIndices (logs : List LogEntry) : List Nat :=
  logs.filterMap (fun e =>
    match e with
    | .stepDone i _ _ => some i
    | _ => none)

/-- Oracle for one `executeAction` dispatch (the browser capability):
either the action completes successfully after `durMs` milliseconds,
or it throws the given error.  The proactive `ensureTimeRemaining`
check that `executeAction` performs before dispatching is NOT part of
the oracle — it is modelled explicitly in the loop. -/
inductive StepOutcome where
  | ok (durMs : Nat)
  | err (e : PlaywrightHttpError)
deriving DecidableEq, Repr

/-- The total-timeout error `ensureTimeRemaining` throws (it is a
`PlaywrightHttpError`, so `normalizeActionError` propagates it
unchanged). -/
def totalTimeoutError (actionName : String) : PlaywrightHttpError :=
  ⟨408, s!"Timeout total do job antes da action \"{actionName}\"."⟩

/-- The step loop of `runPlaywrightJob` (`for i ...` in `runner.ts`)
over a list of actions paired with their dispatch outcomes.  For each
step in order: append the step-start line, run `ensureTimeRemaining`
against the shared deadline (failing the whole job with the
total-timeout error when the budget is spent), then dispatch; a
successful dispatch advances the clock by its duration and appends
the step-completion line, a thrown error fails the job.  A failure
carries the logs accumulated up to that point, as the
`PlaywrightJobError` in the source does. -/
def runStepsAux (deadline : Int) :
    List (String × StepOutcome) → Int → Nat → List LogEntry →
    Except (PlaywrightHttpError × List LogEntry) (Int × List LogEntry)
  | [], now, _, logs => .ok (now, logs)
  | (actionName, outcome) :: rest, now, index, logs =>
    let logs1 := logs ++ [.stepStart index actionName]
    if deadline - now ≤ 0 then
      .error (totalTimeoutError actionName, logs1)
    else
      match outcome with
      | .err e => .error (e, logs1)
      | .ok durMs =>
        runStepsAux deadline rest (now + durMs) (index + 1)
          (logs1 ++ [.stepDone index actionName durMs])

/-- The failure shape `runPlaywrightJob` throws
(`PlaywrightJobError`): the mapped status code and the accumulated
logs (job id, message and elapsed time are orthogonal to the
claims). -/
structure PlaywrightJobFailure where
  statusCode : Nat
  logs : List LogEntry
deriving DecidableEq, Repr

/-- The deadline-relevant skeleton of `runPlaywrightJob`: compute
`deadline = startedAt + timeoutMs`, append the job-start line, run
the step loop, and wrap the outcome — success logs gain the success
line, a failure is normalised into a `PlaywrightJobFailure` whose
status code is the thrown error's own (every error reaching it here
is a `PlaywrightHttpError`, which `resolveStatusCode` passes
through) and whose logs gain the error line.  Browser/context
lifecycle, outputs and cleanup run alongside and do not touch the
log claims modelled here. -/
def runPlaywrightJobModel (timeoutMs startedAt : Int)
    (steps : List (String × StepOutcome)) :
    Except PlaywrightJobFailure (List LogEntry) :=
  let deadline := startedAt + timeoutMs
  match runStepsAux deadline steps startedAt 0 [.jobStart] with
  | .ok (_, logs) => .ok (logs ++ [.jobSuccess])
  | .error (e, logs) => .error ⟨e.statusCode, logs ++ [.jobFailure e.statusCode]⟩

/-! ## Shared helper lemmas -/

/-- Splitting a successful `Except` bind into its two stages. -/
theorem except_bind_ok {E A B : Type} {x : Except E A} {f : A → Except E B} {r : B}
    (h : x >>= f = .ok r) : ∃ a, x = .ok a ∧ f a = .ok r := by
  cases x with
  | ok a => exact ⟨a, rfl, h⟩
  | error e => exact absurd h (by simp [Bind.bind, Except.bind])

/-- A non-empty list has a non-zero length test. -/
theorem length_eq_zero_false {α : Type} {l : List α} (h : l ≠ []) :
    (l.length = 0) = False := by
  simp [List.length_eq_zero, h]

/-- The invalid-URL error message never coincides with the
domain-blocked error message (their first characters differ), so the
two rejection modes of `assertAllowedDomain` are distinct. -/
theorem invalidUrlMessage_ne_blockedDomainMessage (f g : String)
    (allow : List String) : invalidUrlMessage f ≠ blockedDomainMessage g allow := by
  intro h
  have hd := congrArg (fun s => s.data.head?) h
  simp only [invalidUrlMessage, blockedDomainMessage, String.data_append] at hd
  simp [List.cons_append] at hd

/-! ## C1 -/

/-- C1: the action vocabulary accepted by the validator does NOT
include `evaluate`.  A canonical payload step
`{action: "evaluate", script: "document.title"}` is rejected by
`parseAction` as an unknown tag (status 400, the `invalida` error),
even though the `evaluate` tag is a declared variant of
`PlaywrightAction` (as in `types.ts`) and `executeAction` in
`runner.ts` dispatches it.  This evaluates the code at the claim's
failing input. -/
theorem C1_parse_rejects_evaluate :
    parseAction (.obj [("action", .str "evaluate"), ("script", .str "document.title")]) 0 []
      = .error ⟨400, "actions[0].action invalida: \"evaluate\"."⟩ ∧
    ACTION_NAMES.contains "evaluate" = false ∧
    (PlaywrightAction.evaluate "document.title" none none).name = "evaluate" := by
  refine ⟨rfl, by decide, rfl⟩

/-! ## C7 -/

/-- C7: with `allowDomains = ["example.com"]`, the guard permits
`https://example.com/x` and `https://sub.example.com/x` (hostname
equal to the entry, or ending in `"." ++ entry`), and rejects
`https://notexample.com/x` and `https://example.com.evil.net/x` with
the domain-blocked error. -/
theorem C7_allowlist_examples :
    assertAllowedDomain "https://example.com/x" ["example.com"] "actions[0].url" = .ok () ∧
    assertAllowedDomain "https://sub.example.com/x" ["example.com"] "actions[0].url" = .ok () ∧
    assertAllowedDomain "https://notexample.com/x" ["example.com"] "actions[0].url"
      = .error ⟨400, blockedDomainMessage "actions[0].url" ["example.com"]⟩ ∧
    assertAllowedDomain "https://example.com.evil.net/x" ["example.com"] "actions[0].url"
      = .error ⟨400, blockedDomainMessage "actions[0].url" ["example.com"]⟩ :=
  ⟨rfl, rfl, rfl, rfl⟩

/-! ## C3 -/

/-- C3: with deadline `d` and current time `t`, when the budget
`d - t` is still positive, `resolveStepTimeout` returns
`min r (d - t)` for a requested per-action timeout `r ≥ 1` (never
exceeding the remaining budget) and returns the full remainder
`d - t` when no per-action timeout is requested; when the budget is
spent (`d - t ≤ 0`), both `resolveStepTimeout` and the proactive
per-step check `ensureTimeRemaining` throw the 408 total-timeout
error without attempting the action. -/
theorem C3_step_timeout_budget (d t r : Int) (actionName : String) :
    (0 < d - t → 1 ≤ r →
      resolveStepTimeout d t (some r) = .ok (min r (d - t)) ∧ min r (d - t) ≤ d - t) ∧
    (0 < d - t → resolveStepTimeout d t none = .ok (d - t)) ∧
    (d - t ≤ 0 →
      resolveStepTimeout d t (some r) = .error ⟨408, "Timeout total do job atingido."⟩ ∧
      resolveStepTimeout d t none = .error ⟨408, "Timeout total do job atingido."⟩ ∧
      ensureTimeRemaining d t actionName = .error (totalTimeoutError actionName)) := by
  refine ⟨?_, ?_, ?_⟩
  · intro h hr
    constructor
    · unfold resolveStepTimeout
      rw [if_neg (by omega)]
      show Except.ok (max 1 (min r (d - t))) = Except.ok (min r (d - t))
      congr 1
      omega
    · omega
  · intro h
    unfold resolveStepTimeout
    rw [if_neg (by omega)]
  · intro h
    refine ⟨?_, ?_, ?_⟩
    · unfold resolveStepTimeout
      rw [if_pos (by omega)]
    · unfold resolveStepTimeout
      rw [if_pos (by omega)]
    · unfold ensureTimeRemaining totalTimeoutError
      rw [if_pos (by omega)]

/-- Witness for C3 at concrete inputs: deadline 100, now 40,
requested 20 gives effective timeout `min 20 60 = 20`; with no
request the remainder 60 is returned; at now 150 the budget is spent
and both checks throw 408. -/
theorem C3_step_timeout_budget_witness :
    resolveStepTimeout 100 40 (some 20) = .ok 20 ∧
    resolveStepTimeout 100 40 none = .ok 60 ∧
    resolveStepTimeout 100 150 none = .error ⟨408, "Timeout total do job atingido."⟩ ∧
    ensureTimeRemaining 100 150 "goto" = .error (totalTimeoutError "goto") := by
  have h1 := (C3_step_timeout_budget 100 40 20 "goto").1 (by decide) (by decide)
  have h2 := (C3_step_timeout_budget 100 40 20 "goto").2.1 (by decide)
  have h3 := (C3_step_timeout_budget 100 150 20 "goto").2.2 (by decide)
  refine ⟨by rw [h1.1]; rfl, by rw [h2]; rfl, h3.2.1, h3.2.2⟩

/-! ## C4 -/

/-- C4 counterexample: with an EMPTY allowlist, `assertAllowedDomain`
returns success even for a string that fails to parse as a URL — the
empty-allowlist opt-out is checked before URL parsing, so the
malformed input is not rejected, contradicting the claim that
malformed URLs are rejected regardless of the allowlist contents. -/
theorem C4_empty_allowlist_skips_url_parse :
    parseURL "not a url" = none ∧
    assertAllowedDomain "not a url" [] "actions[0].url" = .ok () :=
  ⟨rfl, rfl⟩

/-- C4 (amended): for every URL string that fails to parse,
`assertAllowedDomain` rejects it with the field-scoped invalid-URL
error — an error distinct from the domain-blocked error — whenever
the allowlist is NON-empty; with an empty allowlist the guard
returns success without parsing the URL at all. -/
theorem C4_malformed_url_rejection (url field : String) (allow : List String)
    (hparse : parseURL url = none) (hne : allow ≠ []) :
    assertAllowedDomain url allow field = .error ⟨400, invalidUrlMessage field⟩ ∧
    (∀ g allow2, (⟨400, invalidUrlMessage field⟩ : PlaywrightHttpError)
      ≠ ⟨400, blockedDomainMessage g allow2⟩) ∧
    assertAllowedDomain url [] field = .ok () := by
  refine ⟨?_, ?_, rfl⟩
  · unfold assertAllowedDomain
    rw [if_neg (by simp [List.length_eq_zero, hne]), hparse]
  · intro g allow2 hcontra
    exact invalidUrlMessage_ne_blockedDomainMessage field g allow2
      (congrArg PlaywrightHttpError.message hcontra)

/-- Witness for C4 at a concrete input: the malformed string
`not a url` with the non-empty allowlist `["example.com"]` is
rejected with the invalid-URL error. -/
theorem C4_malformed_url_rejection_witness :
    assertAllowedDomain "not a url" ["example.com"] "actions[0].url"
      = .error ⟨400, invalidUrlMessage "actions[0].url"⟩ :=
  (C4_malformed_url_rejection "not a url" "actions[0].url" ["example.com"]
    rfl (by simp)).1

/-! ## C9 -/

/-- C9: every request accepted by `parseRunRequestBody` has `proxy`,
`blockResources`, `userAgent` and `viewport` unset — the validator
only ever populates `session`, `timeoutMs` and `actions`, even when
the payload supplies those other fields (unknown top-level keys are
simply ignored), so the runner's proxy/viewport/user-agent branches
always see the built-in defaults for validated input. -/
theorem C9_validator_leaves_optionals_unset (body : JValue) (options : ValidatorOptions)
    (req : PlaywrightRunRequest) (h : parseRunRequestBody body options = .ok req) :
    req.proxy = none ∧ req.blockResources = none ∧
    req.userAgent = none ∧ req.viewport = none := by
  unfold parseRunRequestBody at h
  obtain ⟨payload, -, h⟩ := except_bind_ok h
  obtain ⟨session, -, h⟩ := except_bind_ok h
  obtain ⟨timeoutMs, -, h⟩ := except_bind_ok h
  obtain ⟨actionsRaw, -, h⟩ := except_bind_ok h
  split at h
  · exact absurd h (by simp)
  · split at h
    · exact absurd h (by simp)
    · obtain ⟨actions, -, h⟩ := except_bind_ok h
      obtain rfl := (Except.ok.inj h).symm
      exact ⟨rfl, rfl, rfl, rfl⟩

/-- Witness for C9: a concrete payload that even supplies a `proxy`
field parses successfully, and the parsed request has all four
optional runner fields unset. -/
theorem C9_validator_leaves_optionals_unset_witness :
    parseRunRequestBody
      (.obj [("proxy", .obj [("server", .str "http://proxy.local:3128")]),
             ("actions", .arr [.obj [("action", .str "screenshot"), ("name", .str "home")]])])
      ⟨5, 30000, []⟩
      = .ok { session := none, timeoutMs := 30000, proxy := none, blockResources := none,
              userAgent := none, viewport := none,
              actions := [.screenshot "home" none] } ∧
    ({ session := none, timeoutMs := 30000, proxy := none, blockResources := none,
       userAgent := none, viewport := none,
       actions := [.screenshot "home" none] } : PlaywrightRunRequest).proxy = none ∧
    ({ session := none, timeoutMs := 30000, proxy := none, blockResources := none,
       userAgent := none, viewport := none,
       actions := [.screenshot "home" none] } : PlaywrightRunRequest).blockResources = none ∧
    ({ session := none, timeoutMs := 30000, proxy := none, blockResources := none,
       userAgent := none, viewport := none,
       actions := [.screenshot "home" none] } : PlaywrightRunRequest).userAgent = none ∧
    ({ session := none, timeoutMs := 30000, proxy := none, blockResources := none,
       userAgent := none, viewport := none,
       actions := [.screenshot "home" none] } : PlaywrightRunRequest).viewport = none :=
  ⟨rfl, C9_validator_leaves_optionals_unset
    (.obj [("proxy", .obj [("server", .str "http://proxy.local:3128")]),
           ("actions", .arr [.obj [("action", .str "screenshot"), ("name", .str "home")]])])
    ⟨5, 30000, []⟩
    { session := none, timeoutMs := 30000, proxy := none, blockResources := none,
      userAgent := none, viewport := none,
      actions := [.screenshot "home" none] }
    (by rfl)⟩

/-! ## C2 -/

/-- When the cumulative count must overshoot `maxBytes`, the
streaming loop ends in the size-limit error with a cumulative count
strictly above the limit (so in particular non-zero). -/
theorem streamChunks_overflow (maxBytes : Nat) :
    ∀ (chunks : List Nat) (total written : Nat),
    total ≤ maxBytes → maxBytes < total + chunks.sum →
    ∃ t w, streamChunks maxBytes chunks total written
      = (.error ⟨400, sizeLimitMessage maxBytes⟩, t, w) ∧ maxBytes < t := by
  intro chunks
  induction chunks with
  | nil =>
    intro total written h1 h2
    simp only [List.sum_nil] at h2
    omega
  | cons c rest ih =>
    intro total written h1 h2
    simp only [streamChunks]
    split
    · next h => exact ⟨total + c, written, rfl, h⟩
    · next h =>
      exact ih (total + c) (written + c) (by omega)
        (by simp only [List.sum_cons] at h2; omega)

/-- C2 (amended): whenever a download reaches the streaming stage
(domain allowed, 2xx status, image content-type, declared length not
over the limit, body present) and the body's cumulative size exceeds
`maxBytes`, the call fails with the size-limit client-fault error —
but the partially written destination file is NOT deleted before the
function returns: the cleanup in the `finally` block fires only when
zero bytes were counted, and an overflowing stream always counted
more than zero. -/
theorem C2_oversize_error_keeps_partial_file
    (url destinationDir : String) (maxBytes : Nat) (timeoutMs : Int)
    (allow : List String) (status : Nat) (ct clh : Option String) (chunks : List Nat)
    (hdom : assertAllowedDomain url allow "uploadFromUrl.url" = .ok ())
    (hstatus : statusOk status = true)
    (himg : jsStartsWith (normalizeContentType ct) "image/" = true)
    (hlen : declaredSizeExceeds clh maxBytes = false)
    (hover : maxBytes < chunks.sum) :
    (downloadImageFromUrl url destinationDir maxBytes timeoutMs allow
      (.response status ct clh (some chunks))).outcome
      = .error ⟨400, sizeLimitMessage maxBytes⟩ ∧
    (downloadImageFromUrl url destinationDir maxBytes timeoutMs allow
      (.response status ct clh (some chunks))).fileRemains = true := by
  obtain ⟨t, w, heq, ht⟩ :=
    streamChunks_overflow maxBytes chunks 0 0 (by omega) (by omega)
  unfold downloadImageFromUrl
  rw [hdom]
  simp only [hstatus, himg, hlen, Bool.not_true, if_false, ite_false, heq]
  constructor
  · rfl
  · show (!(t = 0 : Bool) : Bool) = true
    simp only [Bool.not_eq_true']
    simp only [decide_eq_false_iff_not]
    omega

/-- Witness for C2 (amended) at a concrete input: limit 8 bytes,
chunks of 5 and 5 — the call fails with the size-limit error and the
partial file remains on disk. -/
theorem C2_oversize_error_keeps_partial_file_witness :
    (downloadImageFromUrl "https://example.com/pic.png" "/tmp/job" 8 1000 []
      (.response 200 (some "image/png") none (some [5, 5]))).outcome
      = .error ⟨400, sizeLimitMessage 8⟩ ∧
    (downloadImageFromUrl "https://example.com/pic.png" "/tmp/job" 8 1000 []
      (.response 200 (some "image/png") none (some [5, 5]))).fileRemains = true :=
  C2_oversize_error_keeps_partial_file "https://example.com/pic.png" "/tmp/job" 8 1000
    [] 200 (some "image/png") none [5, 5] rfl rfl rfl rfl (by decide)

/-- C2 counterexample to the claim as stated: in the same concrete
oversize download the destination file was created, five bytes of it
were written, and it still exists when `downloadImageFromUrl`
returns — the claim says it is deleted before the function
returns. -/
theorem C2_partial_file_not_deleted_counterexample :
    downloadImageFromUrl "https://example.com/pic.png" "/tmp/job" 8 1000 []
      (.response 200 (some "image/png") none (some [5, 5]))
      = ⟨.error ⟨400, "Arquivo em uploadFromUrl excede limite de 0MB."⟩, true, true, 5⟩ :=
  rfl

/-! ## Path-model lemmas for C5 and C10 -/

/-- A plain path segment: non-empty, not a dot directory, and free of
separators — the segments produced by the safe-name validators. -/
def plainSeg (s : String) : Bool :=
  !(s = "") && !(s = ".") && !(s = "..") && s.data.all (fun c => !(c = '/'))

/-- `dropWhile` is the identity when no element satisfies the
predicate. -/
theorem dropWhile_eq_self_of_none {α : Type} (p : α → Bool) (l : List α)
    (h : ∀ c ∈ l, p c = false) : l.dropWhile p = l := by
  cases l with
  | nil => rfl
  | cons a t => simp [List.dropWhile_cons, h a (by simp)]

/-- Trimming is the identity on whitespace-free strings. -/
theorem jsTrim_eq_self (s : String) (h : ∀ c ∈ s.data, isJsWs c = false) :
    jsTrim s = s := by
  unfold jsTrim
  rw [dropWhile_eq_self_of_none _ _ h,
    dropWhile_eq_self_of_none _ _ (fun c hc => h c (List.mem_reverse.mp hc)),
    List.reverse_reverse]

/-- Safe name characters are not whitespace. -/
theorem isSafeNameChar_not_ws {c : Char} (h : isSafeNameChar c = true) :
    isJsWs c = false := by
  by_contra h2
  rw [Bool.not_eq_false] at h2
  unfold isJsWs Char.isWhitespace at h2
  simp only [Bool.or_eq_true, decide_eq_true_eq] at h2
  rcases h2 with ((h2 | h2) | h2) | h2 <;> subst h2 <;> exact absurd h (by decide)

/-- Safe name characters are not the path separator. -/
theorem isSafeNameChar_not_slash {c : Char} (h : isSafeNameChar c = true) :
    ¬ c = '/' := by
  intro h2
  subst h2
  exact absurd h (by decide)

/-- `splitSegsAux` on separator-free input yields a single segment. -/
theorem splitSegsAux_no_slash : ∀ (cs acc : List Char),
    (∀ c ∈ cs, ¬ c = '/') →
    splitSegsAux cs acc = [String.mk (acc.reverse ++ cs)] := by
  intro cs
  induction cs with
  | nil => intro acc _; simp [splitSegsAux]
  | cons c t ih =>
    intro acc h
    unfold splitSegsAux
    rw [if_neg (h c (by simp)), ih (c :: acc) (fun d hd => h d (by simp [hd]))]
    simp

/-- `splitSegs` of a separator-free string is that string alone. -/
theorem splitSegs_single (s : String) (h : ∀ c ∈ s.data, ¬ c = '/') :
    splitSegs s = [s] := by
  unfold splitSegs
  rw [splitSegsAux_no_slash s.data [] h]
  simp

/-- `normStep` appends a plain segment. -/
theorem normStep_plain (acc : List String) (seg : String)
    (h1 : ¬ seg = "") (h2 : ¬ seg = ".") (h3 : ¬ seg = "..") :
    normStep acc seg = acc ++ [seg] := by
  unfold normStep
  rw [if_neg (by simp [h1, h2]), if_neg h3]

/-- Normalisation distributes over appending a plain segment. -/
theorem normAbs_append_plain (xs : List String) (seg : String)
    (h1 : ¬ seg = "") (h2 : ¬ seg = ".") (h3 : ¬ seg = "..") :
    normAbs (xs ++ [seg]) = normAbs xs ++ [seg] := by
  unfold normAbs
  rw [List.foldl_append]
  exact normStep_plain _ _ h1 h2 h3

/-- Unpack the `plainSeg` conjunction. -/
theorem plainSeg_spec {s : String} (h : plainSeg s = true) :
    ¬ s = "" ∧ ¬ s = "." ∧ ¬ s = ".." ∧ ∀ c ∈ s.data, ¬ c = '/' := by
  unfold plainSeg at h
  simp only [Bool.and_eq_true, Bool.not_eq_true', decide_eq_false_iff_not,
    List.all_eq_true, decide_eq_true_eq] at h
  exact ⟨h.1.1.1, h.1.1.2, h.1.2, fun c hc => (h.2 c hc)⟩

/-- Folding `normStep` over plain segments appends them all. -/
theorem foldl_normStep_plain : ∀ (segs acc : List String),
    (∀ s ∈ segs, plainSeg s = true) →
    List.foldl normStep acc segs = acc ++ segs := by
  intro segs
  induction segs with
  | nil => intro acc _; simp
  | cons x t ih =>
    intro acc h
    obtain ⟨h1, h2, h3, -⟩ := plainSeg_spec (h x (by simp))
    rw [List.foldl_cons, normStep_plain acc x h1 h2 h3,
      ih (acc ++ [x]) (fun s hs => h s (by simp [hs]))]
    simp

/-- `joinSegs` of an appended final segment. -/
theorem joinSegs_append (xs : List String) (f : String) (h : xs ≠ []) :
    joinSegs (xs ++ [f]) = joinSegs xs ++ "/" ++ f := by
  induction xs with
  | nil => exact absurd rfl h
  | cons x t ih =>
    cases t with
    | nil => rfl
    | cons y t2 =>
      have step : joinSegs ((y :: t2) ++ [f]) = joinSegs (y :: t2) ++ "/" ++ f :=
        ih (by simp)
      show joinSegs (x :: ((y :: t2) ++ [f])) = (joinSegs (x :: y :: t2) ++ "/") ++ f
      have lhs : joinSegs (x :: ((y :: t2) ++ [f]))
          = x ++ "/" ++ joinSegs ((y :: t2) ++ [f]) := rfl
      rw [lhs, step]
      show (x ++ "/") ++ ((joinSegs (y :: t2) ++ "/") ++ f)
        = (((x ++ "/") ++ joinSegs (y :: t2)) ++ "/") ++ f
      simp [String.append_assoc]

/-- `renderAbs` of an appended final segment, provided the base is
not the bare root. -/
theorem renderAbs_append (xs : List String) (f : String) (h : xs ≠ []) :
    renderAbs (xs ++ [f]) = renderAbs xs ++ "/" ++ f := by
  unfold renderAbs
  rw [joinSegs_append xs f h]
  simp [String.append_assoc]

/-- Appending `"/" ++ f` strictly lengthens a string, so the result
differs from the original. -/
theorem append_sep_ne (root f : String) : ¬ (root ++ "/" ++ f = root) := by
  intro h
  have hlen := congrArg String.length h
  rw [String.length_append, String.length_append] at hlen
  have h1 : ("/" : String).length = 1 := rfl
  omega

/-- A string starts with any of its prefixes. -/
theorem jsStartsWith_append (a b : String) : jsStartsWith (a ++ b) a = true := by
  unfold jsStartsWith
  rw [String.data_append]
  exact List.isPrefixOf_iff_prefix.mpr (List.prefix_append _ _)

/-! ## C5 -/

/-- All characters of a matching session identifier are safe. -/
theorem sessionRegexMatches_chars {s : String} (h : sessionRegexMatches s = true) :
    ∀ c ∈ s.data, isSafeNameChar c = true := by
  unfold sessionRegexMatches at h
  simp only [Bool.and_eq_true, decide_eq_true_eq, List.all_eq_true] at h
  exact h.2

/-- A matching session identifier is non-empty. -/
theorem sessionRegexMatches_ne_empty {s : String} (h : sessionRegexMatches s = true) :
    ¬ s = "" := by
  intro h2
  subst h2
  exact absurd h (by decide)

/-- A matching session identifier is untouched by trimming. -/
theorem sessionRegexMatches_trim {s : String} (h : sessionRegexMatches s = true) :
    jsTrim s = s :=
  jsTrim_eq_self s (fun c hc => isSafeNameChar_not_ws (sessionRegexMatches_chars h c hc))

/-- The session file name `<session>.json` is separator-free. -/
theorem sessionFileName_no_slash {s : String} (h : sessionRegexMatches s = true) :
    ∀ c ∈ (s ++ ".json").data, ¬ c = '/' := by
  intro c hc
  rw [String.data_append] at hc
  rcases List.mem_append.mp hc with hmem | hmem
  · exact isSafeNameChar_not_slash (sessionRegexMatches_chars h c hmem)
  · fin_cases hmem <;> decide

/-- The session file name is not an absolute path. -/
theorem sessionFileName_not_absolute {s : String} (h : sessionRegexMatches s = true) :
    isAbsolutePath (s ++ ".json") = false := by
  unfold isAbsolutePath jsStartsWith
  rw [String.data_append]
  cases hs : s.data with
  | nil =>
    exact absurd (by cases s; simp_all) (sessionRegexMatches_ne_empty h)
  | cons c l =>
    have hc : ¬ c = '/' :=
      isSafeNameChar_not_slash (sessionRegexMatches_chars h c (by rw [hs]; simp))
    show List.isPrefixOf ['/'] ((c :: l) ++ ".json".data) = false
    simp only [List.cons_append, List.isPrefixOf]
    simp [beq_iff_eq]
    intro h2
    exact absurd h2.symm hc

/-- Length facts distinguishing `<session>.json` from the dot
directories. -/
theorem sessionFileName_plain {s : String} (h : sessionRegexMatches s = true) :
    ¬ (s ++ ".json") = "" ∧ ¬ (s ++ ".json") = "." ∧ ¬ (s ++ ".json") = ".." := by
  have hlen : 1 ≤ s.length := by
    unfold sessionRegexMatches at h
    simp only [Bool.and_eq_true, decide_eq_true_eq] at h
    exact h.1.1
  have h5 : (".json" : String).length = 5 := rfl
  have h0 : ("" : String).length = 0 := rfl
  have h1 : ("." : String).length = 1 := rfl
  have h2 : (".." : String).length = 2 := rfl
  refine ⟨?_, ?_, ?_⟩ <;> intro heq <;>
    have hl := congrArg String.length heq <;>
    rw [String.length_append] at hl <;> omega

/-- C5 counterexample to the claim as stated: the string `" abc "`
does not match `[A-Za-z0-9._-]{1,64}`, yet `getSessionStatePath`
does not throw — the implementation trims first, so the call returns
the path for the trimmed identifier `abc`. -/
theorem C5_untrimmed_session_accepted :
    sessionRegexMatches " abc " = false ∧
    getSessionStatePath [] "/data" " abc " = .ok "/data/abc.json" :=
  ⟨rfl, rfl⟩

/-- C5 (amended): `getSessionStatePath` trims the session string
before validating.  For every session string matching
`[A-Za-z0-9._-]{1,64}` (such strings are trim-invariant) and every
storage root that does not resolve to the filesystem root, the call
returns the path `<root>/<session>.json`, which is strictly inside
the resolved storage root: never equal to it and always extending it
past a separator.  For every string whose TRIMMED value fails the
pattern, the call throws a 400 validation error instead of returning
a path. -/
theorem C5_session_path_confinement (cwd : List String) (storageDir session : String) :
    (sessionRegexMatches session = true →
      normAbs (resolveSegs cwd [storageDir]) ≠ [] →
      getSessionStatePath cwd storageDir session
        = .ok (pathResolve cwd [storageDir] ++ "/" ++ (session ++ ".json")) ∧
      ¬ (pathResolve cwd [storageDir] ++ "/" ++ (session ++ ".json")
          = pathResolve cwd [storageDir]) ∧
      jsStartsWith (pathResolve cwd [storageDir] ++ "/" ++ (session ++ ".json"))
        (pathResolve cwd [storageDir] ++ "/") = true) ∧
    (sessionRegexMatches (jsTrim session) = false →
      ∃ e, getSessionStatePath cwd storageDir session = .error e ∧ e.statusCode = 400) := by
  constructor
  · intro hm hroot
    have htrim : jsTrim session = session := sessionRegexMatches_trim hm
    have hneEmpty : ¬ jsTrim session = "" := by
      rw [htrim]; exact sessionRegexMatches_ne_empty hm
    have hval : validateSessionName session "session" = .ok session := by
      unfold validateSessionName
      rw [if_neg hneEmpty]
      simp only [htrim, hm, Bool.not_true]
      rfl
    obtain ⟨hne, hdot, hdots⟩ := sessionFileName_plain hm
    have hsplit : splitSegs (session ++ ".json") = [session ++ ".json"] :=
      splitSegs_single _ (sessionFileName_no_slash hm)
    have habs : isAbsolutePath (session ++ ".json") = false :=
      sessionFileName_not_absolute hm
    have hsegs : resolveSegs cwd [storageDir, session ++ ".json"]
        = resolveSegs cwd [storageDir] ++ [session ++ ".json"] := by
      unfold resolveSegs
      simp only [List.foldl_cons, List.foldl_nil]
      rw [habs]
      simp [hsplit]
    have hres : pathResolve cwd [storageDir, session ++ ".json"]
        = pathResolve cwd [storageDir] ++ "/" ++ (session ++ ".json") := by
      unfold pathResolve
      rw [hsegs, normAbs_append_plain _ _ hne hdot hdots, renderAbs_append _ _ hroot]
    have hinside : resolveInsideRoot cwd storageDir (session ++ ".json") "session file"
        = .ok (pathResolve cwd [storageDir] ++ "/" ++ (session ++ ".json")) := by
      unfold resolveInsideRoot
      rw [hres]
      rw [if_neg (append_sep_ne (pathResolve cwd [storageDir]) (session ++ ".json"))]
      rw [jsStartsWith_append (pathResolve cwd [storageDir] ++ "/") (session ++ ".json")]
      rfl
    refine ⟨?_, append_sep_ne _ _, jsStartsWith_append _ _⟩
    unfold getSessionStatePath
    rw [hval]
    show resolveInsideRoot cwd storageDir (session ++ ".json") "session file" = _
    exact hinside
  · intro hm
    unfold getSessionStatePath validateSessionName
    by_cases he : jsTrim session = ""
    · rw [if_pos he]
      exact ⟨_, rfl, rfl⟩
    · rw [if_neg he]
      simp only [hm, Bool.not_false]
      exact ⟨_, rfl, rfl⟩

/-- Witness for C5 (amended) at concrete inputs: the matching
identifier `abc` under root `/data` resolves strictly inside the
root, and the string `"  bad name  "` (whose trimmed value fails the
pattern) produces a 400 error. -/
theorem C5_session_path_confinement_witness :
    getSessionStatePath [] "/data" "abc"
      = .ok (pathResolve [] ["/data"] ++ "/" ++ ("abc" ++ ".json")) ∧
    ¬ (pathResolve [] ["/data"] ++ "/" ++ ("abc" ++ ".json") = pathResolve [] ["/data"]) ∧
    jsStartsWith (pathResolve [] ["/data"] ++ "/" ++ ("abc" ++ ".json"))
      (pathResolve [] ["/data"] ++ "/") = true ∧
    (∃ e, getSessionStatePath [] "/data" "  bad name  " = .error e ∧ e.statusCode = 400) := by
  have h1 := (C5_session_path_confinement [] "/data" "abc").1 (by decide) (by decide)
  have h2 := (C5_session_path_confinement [] "/data" "  bad name  ").2 (by decide)
  exact ⟨h1.1, h1.2.1, h1.2.2, h2⟩

/-! ## C10 -/

/-- `splitSegsAux` consumes up to the first separator. -/
theorem splitSegsAux_through_slash : ∀ (pre : List Char) (suffix acc : List Char),
    (∀ c ∈ pre, ¬ c = '/') →
    splitSegsAux (pre ++ '/' :: suffix) acc
      = String.mk (acc.reverse ++ pre) :: splitSegsAux suffix [] := by
  intro pre
  induction pre with
  | nil =>
    intro suffix acc _
    simp [splitSegsAux]
  | cons c t ih =>
    intro suffix acc h
    show splitSegsAux (c :: (t ++ '/' :: suffix)) acc = _
    unfold splitSegsAux
    rw [if_neg (h c (by simp)), ih suffix (c :: acc) (fun d hd => h d (by simp [hd]))]
    simp
    cases suffix with
    | nil => rfl
    | cons d rest => rfl

/-- Splitting the join of plain segments recovers the segments. -/
theorem splitSegsAux_join_plain : ∀ (segs : List String),
    segs ≠ [] → (∀ s ∈ segs, plainSeg s = true) →
    splitSegsAux (joinSegs segs).data [] = segs := by
  intro segs
  induction segs with
  | nil => intro h _; exact absurd rfl h
  | cons x t ih =>
    intro _ hplain
    obtain ⟨-, -, -, hx⟩ := plainSeg_spec (hplain x (by simp))
    cases t with
    | nil =>
      show splitSegsAux x.data [] = [x]
      rw [splitSegsAux_no_slash x.data [] hx]
      simp
    | cons y t2 =>
      have hjoin : (joinSegs (x :: y :: t2)).data
          = x.data ++ '/' :: (joinSegs (y :: t2)).data := by
        show ((x ++ "/") ++ joinSegs (y :: t2)).data = _
        rw [String.data_append, String.data_append]
        simp
      rw [hjoin, splitSegsAux_through_slash x.data _ [] hx,
        ih (by simp) (fun s hs => hplain s (by simp [hs]))]
      simp

/-- Splitting a rendered absolute path of plain segments yields an
empty lead segment followed by the segments. -/
theorem splitSegs_renderAbs (segs : List String) (hne : segs ≠ [])
    (hplain : ∀ s ∈ segs, plainSeg s = true) :
    splitSegs (renderAbs segs) = "" :: segs := by
  unfold splitSegs renderAbs
  rw [String.data_append]
  show splitSegsAux (['/'] ++ (joinSegs segs).data) [] = "" :: segs
  rw [List.singleton_append]
  unfold splitSegsAux
  rw [if_pos rfl, splitSegsAux_join_plain segs hne hplain]
  rfl

/-- A rendered absolute path is absolute. -/
theorem isAbsolutePath_renderAbs (segs : List String) :
    isAbsolutePath (renderAbs segs) = true := by
  unfold isAbsolutePath jsStartsWith renderAbs
  rw [String.data_append]
  exact List.isPrefixOf_iff_prefix.mpr (List.prefix_append _ _)

/-- C10: `resolveLocalUploadPath` applies no root confinement and
cannot fail: it is exactly `path.resolve` of the caller-supplied
string (first conjunct), and consequently any absolute normalised
path — `/etc/passwd` included — is returned verbatim, regardless of
the working directory and of every configured root (second
conjunct).  The runner then only checks that the resolved path is an
existing regular file before attaching it. -/
theorem C10_upload_path_unconfined (cwd : List String) (segs : List String)
    (hne : segs ≠ []) (hplain : ∀ s ∈ segs, plainSeg s = true) :
    (∀ p : String, resolveLocalUploadPath cwd p = pathResolve cwd [p]) ∧
    resolveLocalUploadPath cwd (renderAbs segs) = renderAbs segs := by
  refine ⟨fun p => rfl, ?_⟩
  show pathResolve cwd [renderAbs segs] = renderAbs segs
  unfold pathResolve resolveSegs
  simp only [List.foldl_cons, List.foldl_nil]
  rw [isAbsolutePath_renderAbs]
  simp only [if_true]
  rw [splitSegs_renderAbs segs hne hplain]
  show renderAbs (List.foldl normStep [] ("" :: segs)) = renderAbs segs
  rw [List.foldl_cons]
  show renderAbs (List.foldl normStep [] segs) = renderAbs segs
  rw [foldl_normStep_plain segs [] hplain]
  rfl

/-- Witness for C10 at a concrete input: from any working directory,
the upload path `/etc/passwd` resolves to itself — no storage or
output root constrains it. -/
theorem C10_upload_path_unconfined_witness :
    resolveLocalUploadPath ["srv", "jobs"] "/etc/passwd" = "/etc/passwd" := by
  have h := (C10_upload_path_unconfined ["srv", "jobs"] ["etc", "passwd"]
    (by decide) (by decide)).2
  exact h

/-! ## C6 -/

/-- If every one of the first `pre.length` steps succeeds while the
budget is still positive, and the budget is spent by the time the
next step's proactive check runs, the loop fails with the
total-timeout error naming that next step, and the accumulated logs
contain completion entries for exactly the preceding steps. -/
theorem runStepsAux_hits_deadline (deadline : Int) :
    ∀ (pre : List (String × Nat)) (nextName : String) (nextOutcome : StepOutcome)
      (rest : List (String × StepOutcome)) (now : Int) (index : Nat) (logs : List LogEntry),
    (∀ j, j < pre.length →
      0 < deadline - (now + (((pre.take j).map Prod.snd).sum : Int))) →
    deadline - (now + ((pre.map Prod.snd).sum : Int)) ≤ 0 →
    ∃ logs2,
      runStepsAux deadline (pre.map (fun p => (p.1, StepOutcome.ok p.2))
        ++ (nextName, nextOutcome) :: rest) now index logs
        = .error (totalTimeoutError nextName, logs2) ∧
      doneIndices logs2 = doneIndices logs ++ List.range' index pre.length := by
  intro pre
  induction pre with
  | nil =>
    intro nextName nextOutcome rest now index logs _ h2
    simp only [List.map_nil, List.sum_nil, List.nil_append] at h2 ⊢
    refine ⟨logs ++ [.stepStart index nextName], ?_, ?_⟩
    · show runStepsAux deadline ((nextName, nextOutcome) :: rest) now index logs = _
      unfold runStepsAux
      rw [if_pos (by push_cast at h2; omega)]
    · simp [doneIndices, List.filterMap_append]
  | cons hd tl ih =>
    intro nextName nextOutcome rest now index logs h1 h2
    have h0 : 0 < deadline - now := by
      have := h1 0 (by simp)
      simpa using this
    simp only [List.map_cons, List.cons_append]
    unfold runStepsAux
    rw [if_neg (by omega)]
    have h1' : ∀ j, j < tl.length →
        0 < deadline - ((now + (hd.2 : Int)) + (((tl.take j).map Prod.snd).sum : Int)) := by
      intro j hj
      have := h1 (j + 1) (by simpa using Nat.succ_lt_succ hj)
      rw [List.take_succ_cons, List.map_cons, List.sum_cons] at this
      push_cast at this ⊢
      omega
    have h2' : deadline - ((now + (hd.2 : Int)) + ((tl.map Prod.snd).sum : Int)) ≤ 0 := by
      rw [List.map_cons, List.sum_cons] at h2
      push_cast at h2 ⊢
      omega
    obtain ⟨logs2, heq, hdone⟩ := ih nextName nextOutcome rest (now + (hd.2 : Int))
      (index + 1) ((logs ++ [.stepStart index hd.1]) ++ [.stepDone index hd.1 hd.2]) h1' h2'
    refine ⟨logs2, heq, ?_⟩
    rw [hdone]
    simp only [doneIndices, List.filterMap_append, List.filterMap_cons,
      List.filterMap_nil, List.length_cons]
    rw [List.range'_succ index tl.length 1]
    simp [List.append_assoc]

/-- C6: for a job whose deadline is exhausted when step `k`
(0-indexed) comes up for its proactive remaining-time check, while
steps `0 .. k-1` each completed successfully within the budget,
`runPlaywrightJob` fails the whole job with the 408 total-timeout
error, and the accumulated logs carry a step-completion (`done`)
entry for exactly the steps `0 .. k-1` — none for step `k` or any
later step. -/
theorem C6_deadline_exact_done_lines (timeoutMs startedAt : Int)
    (pre : List (String × Nat)) (nextName : String) (nextOutcome : StepOutcome)
    (rest : List (String × StepOutcome))
    (h1 : ∀ j, j < pre.length →
      0 < startedAt + timeoutMs - (startedAt + (((pre.take j).map Prod.snd).sum : Int)))
    (h2 : startedAt + timeoutMs - (startedAt + ((pre.map Prod.snd).sum : Int)) ≤ 0) :
    ∃ logs, runPlaywrightJobModel timeoutMs startedAt
        (pre.map (fun p => (p.1, StepOutcome.ok p.2)) ++ (nextName, nextOutcome) :: rest)
        = .error ⟨408, logs⟩ ∧
      doneIndices logs = List.range pre.length := by
  obtain ⟨logs2, heq, hdone⟩ := runStepsAux_hits_deadline (startedAt + timeoutMs) pre
    nextName nextOutcome rest startedAt 0 [.jobStart] h1 h2
  refine ⟨logs2 ++ [.jobFailure 408], ?_, ?_⟩
  · unfold runPlaywrightJobModel
    simp only [heq]
    rfl
  · simp only [doneIndices, List.filterMap_append, List.filterMap_cons,
      List.filterMap_nil] at hdone ⊢
    rw [hdone, List.range_eq_range' pre.length]
    simp

/-- Witness for C6 at a concrete job: timeout 500 ms, step 0 (`goto`)
succeeds but takes 600 ms, so step 1 (`screenshot`) is never
attempted — the job fails with 408 and the logs contain a completion
entry for exactly step 0. -/
theorem C6_deadline_exact_done_lines_witness :
    ∃ logs, runPlaywrightJobModel 500 0 [("goto", .ok 600), ("screenshot", .ok 1)]
        = .error ⟨408, logs⟩ ∧
      doneIndices logs = List.range 1 := by
  have h := C6_deadline_exact_done_lines 500 0 [("goto", 600)] "screenshot" (.ok 1) []
    (by intro j hj
        simp only [List.length_cons, List.length_nil] at hj
        have hj0 : j = 0 := by omega
        subst hj0
        norm_num)
    (by norm_num)
  exact h

/-! ## C8 -/

/-- C8: in a job whose screenshot actions are two actions both named
`shot` (the job output directory starts empty, being freshly created
for the job, and no other action kind writes to it), the first
produces the artifact file `shot.png` and the second `shot-1.png` —
the numeric suffix inserted before the extension — and both artifact
records appear in `outputs.artifacts` in call order. -/
theorem C8_screenshot_collision_suffix (routeBase jobId : String) :
    runScreenshots routeBase jobId ["shot", "shot"] [] []
      = .ok (["shot.png", "shot-1.png"],
        [{ name := "shot", filename := "shot.png",
           url := routeBase ++ "/" ++ jobId ++ "/" ++ "shot.png" },
         { name := "shot", filename := "shot-1.png",
           url := routeBase ++ "/" ++ jobId ++ "/" ++ "shot-1.png" }]) := by
  rfl
